import Mathlib

/-
Verification of the envconfig library (src/envconfig/lib.py) against its
natural-language specification.

The embedding models the Python values and types that envconfig handles
(str, int, bool and the None sentinel), the two helper functions
`_get_env_var_name` and `_get_attributes`, the per-field binder
`_process_env_var`, and the driving loop `process`.  Exceptions are modelled
with an explicit error type; the mutable target object is modelled as a
store from attribute names to optional Python values; the process
environment is a read-only map from names to optional strings.
-/

set_option autoImplicit false

namespace Envconfig

/-- Python runtime values of the types envconfig works with.  `none` is the
Python `None` sentinel assigned on the non-raising absence path. -/
inductive PyVal where
  | str (s : String)
  | int (n : Int)
  | bool (b : Bool)
  | none
deriving DecidableEq

/-- Python type objects that can occur as type hints or as the runtime type
of a default value. -/
inductive PyType where
  | str
  | int
  | bool
  | noneType
deriving DecidableEq

/-- The runtime type of a value, as Python's `type(...)` returns it. -/
def typeOf : PyVal → PyType
  | .str _ => .str
  | .int _ => .int
  | .bool _ => .bool
  | .none => .noneType

/-- Errors that the modelled code can raise.  `missing` is the
`EnvconfigException` raised for a missing required configuration value;
`coercion` is the `ValueError`/`TypeError` raised by a failed string
conversion; `keyErr` is the `KeyError` a failed dictionary subscript
`members[attribute]` would raise. -/
inductive Err where
  | missing (msg : String)
  | coercion (msg : String)
  | keyErr (attr : String)
deriving DecidableEq

/-- Python truthiness of the modelled values. -/
def pyTruthy : PyVal → Bool
  | .str s => s != ""
  | .int n => n != 0
  | .bool b => b
  | .none => false

/-- Truthiness of `members.get(attribute)`: `None` (absent) is falsy. -/
def pyTruthyOptVal : Option PyVal → Bool
  | Option.none => false
  | Option.some v => pyTruthy v

/-- Truthiness of `os.getenv(...)`: `None` (unset) and the empty string are
both falsy. -/
def pyTruthyOptStr : Option String → Bool
  | Option.none => false
  | Option.some s => s != ""

/-- The string carried by a truthy `os.getenv` result. -/
def optStrVal : Option String → String
  | Option.none => ""
  | Option.some s => s

/-- How an f-string renders an optional environment value: `None` prints as
the text "None", a string prints as itself. -/
def pyShowOptStr : Option String → String
  | Option.none => "None"
  | Option.some s => s

/-- Python's str.upper on an ASCII character. -/
def pyUpperChar (c : Char) : Char :=
  if 'a' ≤ c && c ≤ 'z' then Char.ofNat (c.toNat - 32) else c

/-- Python's str.upper on ASCII strings (identifiers and prefixes are
ASCII in this model). -/
def pyUpper (s : String) : String := String.mk (s.data.map pyUpperChar)

/-- Python's str.lower on an ASCII character. -/
def pyLowerChar (c : Char) : Char :=
  if 'A' ≤ c && c ≤ 'Z' then Char.ofNat (c.toNat + 32) else c

/-- Python's str.lower on ASCII strings. -/
def pyLower (s : String) : String := String.mk (s.data.map pyLowerChar)

/-- Python's `str.startswith('_')`: does the string begin with an
underscore? -/
def pyStartsUnderscore (s : String) : Bool :=
  match s.data with
  | [] => false
  | c :: _ => c == '_'

/-- ASCII decimal digit test. -/
def isDigit (c : Char) : Bool := '0' ≤ c && c ≤ '9'

/-- Numeric value of an ASCII digit. -/
def digitVal (c : Char) : Nat := c.toNat - '0'.toNat

/-- Remaining digits of a Python integer literal: digits with single
underscores allowed between digits. -/
def parseDigits : Nat → List Char → Option Nat
  | acc, [] => Option.some acc
  | acc, '_' :: c :: rest =>
    if isDigit c then parseDigits (acc * 10 + digitVal c) rest else Option.none
  | acc, c :: rest =>
    if isDigit c then parseDigits (acc * 10 + digitVal c) rest else Option.none

/-- Whitespace characters stripped by Python's `int(str)`. -/
def isPySpace (c : Char) : Bool :=
  c = ' ' || c = '\t' || c = '\n' || c = '\r' || c = '\x0b' || c = '\x0c'

/-- Strip leading and trailing whitespace. -/
def stripWs (l : List Char) : List Char :=
  ((l.dropWhile isPySpace).reverse.dropWhile isPySpace).reverse

/-- An unsigned digit run, which must be non-empty and start with a digit. -/
def parseNatCore : List Char → Option Nat
  | [] => Option.none
  | c :: rest => if isDigit c then parseDigits (digitVal c) rest else Option.none

/-- Python's `int(s)` on ASCII decimal input: surrounding whitespace, an
optional sign, then a non-empty digit run. -/
def parsePyInt (s : String) : Option Int :=
  match stripWs s.toList with
  | '+' :: rest => (parseNatCore rest).map Int.ofNat
  | '-' :: rest => (parseNatCore rest).map (fun n => -(Int.ofNat n))
  | l => (parseNatCore l).map Int.ofNat

/-- distutils.util.strtobool: lowercase the input, return 1 on a truthy
token, 0 on a falsy token, and raise ValueError (here: Option.none)
otherwise. -/
def strtobool (s : String) : Option Nat :=
  let v := pyLower s
  if v == "y" || v == "yes" || v == "t" || v == "true" || v == "on" || v == "1" then
    Option.some 1
  else if v == "n" || v == "no" || v == "f" || v == "false" || v == "off" || v == "0" then
    Option.some 0
  else
    Option.none

/-- Applying a Python type constructor to a string, as `type_(env_var)`
does: `str(s)` is the identity, `int(s)` parses a decimal literal,
`bool(s)` is the truthiness of the string (true iff non-empty), and
`NoneType(s)` raises a TypeError. -/
def pyCtor : PyType → String → Except Err PyVal
  | .str, s => .ok (.str s)
  | .int, s =>
    match parsePyInt s with
    | Option.some n => .ok (.int n)
    | Option.none => .error (.coercion ("invalid literal for int() with base 10: " ++ s))
  | .bool, s => .ok (.bool (s != ""))
  | .noneType, _ => .error (.coercion "NoneType takes no arguments")

/-- The conversion applied on the type-hint branch of `_process_env_var`:
`bool` is special-cased through `strtobool`, every other type constructor
is applied to the string directly. -/
def coerceHinted (t : PyType) (s : String) : Except Err PyVal :=
  if t = PyType.bool then
    match strtobool s with
    | Option.some n => .ok (.bool (n != 0))
    | Option.none => .error (.coercion ("invalid truth value " ++ s))
  else
    pyCtor t s

/-- Modelled from the spec: the truthy half of the boolean string grammar
of sections 4.2 and 6 (case-insensitive). -/
def specTruthy (s : String) : Bool :=
  let v := pyLower s
  v == "y" || v == "yes" || v == "t" || v == "true" || v == "on" || v == "1"

/-- Modelled from the spec: the falsy half of the boolean string grammar
of sections 4.2 and 6 (case-insensitive). -/
def specFalsy (s : String) : Bool :=
  let v := pyLower s
  v == "n" || v == "no" || v == "f" || v == "false" || v == "off" || v == "0"

/-- Modelled from the spec: the single type-indexed coercion relation of
section 4.2 steps 2b and 2c, used to state claims C1 and C2 as written.
Booleans follow the truthy/falsy grammar whatever the origin of the type;
other types use their standard string conversion. -/
def specCoerce : PyType → String → Except Err PyVal
  | .bool, s =>
    if specTruthy s then .ok (.bool true)
    else if specFalsy s then .ok (.bool false)
    else .error (.coercion ("invalid truth value " ++ s))
  | .int, s =>
    match parsePyInt s with
    | Option.some n => .ok (.int n)
    | Option.none => .error (.coercion ("could not convert string to int: " ++ s))
  | .str, s => .ok (.str s)
  | .noneType, s => .error (.coercion ("cannot convert to NoneType: " ++ s))

/-- The mutable attribute store of the target object: attribute name to
current value, Option.none when the attribute is not set. -/
def Store : Type := String → Option PyVal

/-- `setattr(env, a, v)`. -/
def storeSet (st : Store) (a : String) (v : PyVal) : Store :=
  fun n => if n = a then Option.some v else st n

/-- Apply an optional assignment to the store (used to state that a binder
step writes at most its own attribute). -/
def applyOpt (st : Store) (a : String) : Option PyVal → Store
  | Option.none => st
  | Option.some v => storeSet st a v

/-- The store of an object with no attributes set. -/
def emptyStore : Store := fun _ => Option.none

/-- The message of the exception raised on the missing-configuration path:
the f-string interpolates the attribute name and the looked-up value of the
environment variable (None or the empty string), not the computed
environment variable name. -/
def missingMsg (attr : String) (env_var : Option String) : String :=
  "No default value provided and no env var set for " ++
    (attr ++ (" (env var: " ++ (pyShowOptStr env_var ++ ")")))

/-- The first warning logged on the non-raising absence path; it upcases
the attribute name itself, ignoring any prefix. -/
def warnMsgVar (attr : String) : String :=
  "No default value provided and no env var set for " ++
    (attr ++ (" (env var: " ++ (pyUpper attr ++ ")")))

/-- The second warning logged on the non-raising absence path. -/
def warnMsgNone : String := "Setting value to None"

/-- Shallow embedding of `_get_env_var_name` from src/envconfig/lib.py. -/
def getEnvVarName (pfx : String) (attr : String) : String :=
  if pfx != "" then pyUpper pfx ++ "_" ++ pyUpper attr else pyUpper attr

/-- Shallow embedding of `_process_env_var` from src/envconfig/lib.py.
`env_var` is the result of `os.getenv`; `st` is the target object's
attribute store and `logs` the emitted warning lines. -/
def processEnvVar (attr : String) (env_var : Option String)
    (hints : List (String × PyType)) (members : List (String × PyVal))
    (raise_on_absence : Bool) (st : Store) (logs : List String) :
    Except Err (Store × List String) :=
  if pyTruthyOptStr env_var then
    match List.lookup attr hints with
    | Option.some t =>
      match coerceHinted t (optStrVal env_var) with
      | .ok v => .ok (storeSet st attr v, logs)
      | .error e => .error e
    | Option.none =>
      match List.lookup attr members with
      | Option.some dv =>
        match pyCtor (typeOf dv) (optStrVal env_var) with
        | .ok v => .ok (storeSet st attr v, logs)
        | .error e => .error e
      | Option.none => .error (.keyErr attr)
  else
    if pyTruthyOptVal (List.lookup attr members) then
      .ok (st, logs)
    else if raise_on_absence then
      .error (.missing (missingMsg attr env_var))
    else
      .ok (storeSet st attr PyVal.none, logs ++ [warnMsgVar attr, warnMsgNone])

/-- The state-free skeleton of one binder step: either an error, or an
optional assigned value together with the emitted warnings.  A step never
reads the store, so `processEnvVar` factors through this function. -/
def fieldAct (attr : String) (env_var : Option String)
    (hints : List (String × PyType)) (members : List (String × PyVal))
    (raise_on_absence : Bool) : Except Err (Option PyVal × List String) :=
  if pyTruthyOptStr env_var then
    match List.lookup attr hints with
    | Option.some t =>
      match coerceHinted t (optStrVal env_var) with
      | .ok v => .ok (Option.some v, [])
      | .error e => .error e
    | Option.none =>
      match List.lookup attr members with
      | Option.some dv =>
        match pyCtor (typeOf dv) (optStrVal env_var) with
        | .ok v => .ok (Option.some v, [])
        | .error e => .error e
      | Option.none => .error (.keyErr attr)
  else
    if pyTruthyOptVal (List.lookup attr members) then
      .ok (Option.none, [])
    else if raise_on_absence then
      .error (.missing (missingMsg attr env_var))
    else
      .ok (Option.some PyVal.none, [warnMsgVar attr, warnMsgNone])

/-- The target object as the Field Resolver sees it: its type hints
(`get_type_hints`) and its non-routine attribute values
(`inspect.getmembers`), both as association lists keyed by attribute
name. -/
structure PyObj where
  hints : List (String × PyType)
  members : List (String × PyVal)

/-- The member dictionary of `_get_attributes`: the underscore filter is
applied to the members only, not to the type hints. -/
def filteredMembers (o : PyObj) : List (String × PyVal) :=
  o.members.filter (fun kv => !(pyStartsUnderscore kv.1))

/-- The eligible attribute set of `_get_attributes`:
`set(members.keys()) | set(hints.keys())`.  Python iterates this set in an
unspecified order; `attributes` fixes one concrete enumeration without
duplicates, and order-independence of the final values is proved
separately. -/
def attributes (o : PyObj) : List String :=
  (((filteredMembers o).map Prod.fst) ++ (o.hints.map Prod.fst)).dedup

/-- The attribute store of the target object before `process` runs. -/
def initStore (o : PyObj) : Store :=
  fun n => List.lookup n o.members

/-- The outcome of a `process` call: the final attribute store, the logged
warnings, and the first raised error if any.  When `err` is some error, the
store and logs are those at the moment the exception was raised, since the
mutations already performed survive the exception. -/
structure PResult where
  store : Store
  logs : List String
  err : Option Err

/-- The loop of `process` over a given enumeration of the attribute set:
look up each variable and run the binder, stopping at the first error. -/
def processWith (order : List String) (getenv : String → Option String)
    (hints : List (String × PyType)) (members : List (String × PyVal))
    (raise_on_absence : Bool) (pfx : String) (st : Store) (logs : List String) :
    PResult :=
  match order with
  | [] => ⟨st, logs, Option.none⟩
  | a :: rest =>
    match processEnvVar a (getenv (getEnvVarName pfx a)) hints members raise_on_absence st logs with
    | .ok (st2, logs2) => processWith rest getenv hints members raise_on_absence pfx st2 logs2
    | .error e => ⟨st, logs, Option.some e⟩

/-- Shallow embedding of `process` from src/envconfig/lib.py: resolve the
fields, then bind each one from the environment. -/
def process (getenv : String → Option String) (o : PyObj)
    (raise_on_absence : Bool) (pfx : String) : PResult :=
  processWith (attributes o) getenv o.hints (filteredMembers o)
    raise_on_absence pfx (initStore o) []

/-- The first error the loop would raise on a given enumeration, ignoring
the store (the binder never reads it). -/
def firstErr (order : List String) (getenv : String → Option String)
    (hints : List (String × PyType)) (members : List (String × PyVal))
    (raise_on_absence : Bool) (pfx : String) : Option Err :=
  match order with
  | [] => Option.none
  | a :: rest =>
    match fieldAct a (getenv (getEnvVarName pfx a)) hints members raise_on_absence with
    | .ok _ => firstErr rest getenv hints members raise_on_absence pfx
    | .error e => Option.some e

/-- Substring test, used to state what an error message identifies. -/
def strContainsSub (hay needle : String) : Bool :=
  hay.toList.tails.any (fun t => needle.toList.isPrefixOf t)

/-! Concrete objects and environments used as witnesses and
counterexamples. -/

/-- An object with one annotated field `age : int`. -/
def oAgeHinted : PyObj := ⟨[("age", PyType.int)], []⟩

/-- An environment with AGE set to "25". -/
def envAge25 : String → Option String :=
  fun n => if n = "AGE" then Option.some "25" else Option.none

/-- An object whose only field is `is_married = True` with no annotation. -/
def oMarriedTrue : PyObj := ⟨[], [("is_married", PyVal.bool true)]⟩

/-- An environment with IS_MARRIED set to "false". -/
def envMarriedFalse : String → Option String :=
  fun n => if n = "IS_MARRIED" then Option.some "false" else Option.none

/-- An object whose only field is `is_married = False` with no annotation. -/
def oMarriedFalse : PyObj := ⟨[], [("is_married", PyVal.bool false)]⟩

/-- An environment with IS_MARRIED set to "0". -/
def envMarried0 : String → Option String :=
  fun n => if n = "IS_MARRIED" then Option.some "0" else Option.none

/-- An object with one annotated field `name : str` and no defaults. -/
def oNameHinted : PyObj := ⟨[("name", PyType.str)], []⟩

/-- An environment with both PERSON_NAME and NAME set. -/
def envPersonAndName : String → Option String :=
  fun n =>
    if n = "PERSON_NAME" then Option.some "Makram"
    else if n = "NAME" then Option.some "Wrong"
    else Option.none

/-- An environment with only PERSON_NAME set. -/
def envPersonOnly : String → Option String :=
  fun n => if n = "PERSON_NAME" then Option.some "Makram" else Option.none

/-- The empty environment. -/
def envEmpty : String → Option String := fun _ => Option.none

/-- An object with the field `age : int = 25`. -/
def oAgeDefault : PyObj := ⟨[("age", PyType.int)], [("age", PyVal.int 25)]⟩

/-- An object with one annotated private field `_secret : str`. -/
def oUnderscoreHinted : PyObj := ⟨[("_secret", PyType.str)], []⟩

/-- An environment with _SECRET set. -/
def envSecret : String → Option String :=
  fun n => if n = "_SECRET" then Option.some "hushhush" else Option.none

/-- An environment with AGE set to a non-numeric string. -/
def envAgeBad : String → Option String :=
  fun n => if n = "AGE" then Option.some "abc" else Option.none

/-- The three-field object of the test scenario: `name : str`,
`age : int`, `is_married : bool`. -/
def oScenario : PyObj :=
  ⟨[("name", PyType.str), ("age", PyType.int), ("is_married", PyType.bool)], []⟩

/-- An environment where NAME and IS_MARRIED parse but AGE does not. -/
def envScenarioBadAge : String → Option String :=
  fun n =>
    if n = "NAME" then Option.some "Makram"
    else if n = "AGE" then Option.some "abc"
    else if n = "IS_MARRIED" then Option.some "true"
    else Option.none

/-- An object with only a defaulted member `age = 1`. -/
def oAgeMember : PyObj := ⟨[], [("age", PyVal.int 1)]⟩

/-- An environment with NAME and AGE set to parseable values. -/
def envNameAge : String → Option String :=
  fun n =>
    if n = "NAME" then Option.some "Makram"
    else if n = "AGE" then Option.some "28"
    else Option.none

/-- An object with two annotated fields `name : str` and `age : int`. -/
def oNameAge : PyObj := ⟨[("name", PyType.str), ("age", PyType.int)], []⟩

/-! Structural lemmas about the binder and the loop. -/

/-- A binder step writes no attribute other than its own. -/
theorem applyOpt_apply_ne (st : Store) (b : String) (ov : Option PyVal) (a : String)
    (hne : a ≠ b) : applyOpt st b ov a = st a := by
  cases ov with
  | none => rfl
  | some v => simp [applyOpt, storeSet, hne]

/-- One binder step, in terms of its state-free skeleton: the step either
fails with the skeleton's error, or assigns the skeleton's optional value
at its own attribute and appends the skeleton's warnings. -/
theorem processEnvVar_norm (attr : String) (ev : Option String)
    (hints : List (String × PyType)) (members : List (String × PyVal))
    (roa : Bool) (st : Store) (logs : List String) :
    processEnvVar attr ev hints members roa st logs =
      match fieldAct attr ev hints members roa with
      | .ok (ov, ws) => .ok (applyOpt st attr ov, logs ++ ws)
      | .error e => .error e := by
  unfold processEnvVar fieldAct
  cases hb : pyTruthyOptStr ev with
  | false =>
    simp only [hb, Bool.false_eq_true, if_false]
    cases hd : pyTruthyOptVal (List.lookup attr members) with
    | false =>
      simp only [hd, Bool.false_eq_true, if_false]
      cases roa with
      | true => simp
      | false => simp [applyOpt]
    | true => simp only [hd, if_true]; simp [applyOpt]
  | true =>
    simp only [hb, if_true]
    cases hh : List.lookup attr hints with
    | some t =>
      cases hc : coerceHinted t (optStrVal ev) with
      | ok v => simp [applyOpt, hc]
      | error e => simp [hc]
    | none =>
      cases hm : List.lookup attr members with
      | some dv =>
        cases hc : pyCtor (typeOf dv) (optStrVal ev) with
        | ok v => simp [applyOpt, hc]
        | error e => simp [hc]
      | none => simp

/-- Unfolding lemma for one loop iteration. -/
theorem processWith_cons (a : String) (rest : List String)
    (getenv : String → Option String) (hints : List (String × PyType))
    (members : List (String × PyVal)) (roa : Bool) (pfx : String)
    (st : Store) (logs : List String) :
    processWith (a :: rest) getenv hints members roa pfx st logs =
      match processEnvVar a (getenv (getEnvVarName pfx a)) hints members roa st logs with
      | .ok (st2, logs2) => processWith rest getenv hints members roa pfx st2 logs2
      | .error e => ⟨st, logs, Option.some e⟩ := rfl

/-- One loop iteration, through the state-free skeleton of the binder. -/
theorem processWith_cons_norm (a : String) (rest : List String)
    (getenv : String → Option String) (hints : List (String × PyType))
    (members : List (String × PyVal)) (roa : Bool) (pfx : String)
    (st : Store) (logs : List String) :
    processWith (a :: rest) getenv hints members roa pfx st logs =
      match fieldAct a (getenv (getEnvVarName pfx a)) hints members roa with
      | .ok (ov, ws) =>
        processWith rest getenv hints members roa pfx (applyOpt st a ov) (logs ++ ws)
      | .error e => ⟨st, logs, Option.some e⟩ := by
  rw [processWith_cons, processEnvVar_norm]
  cases fieldAct a (getenv (getEnvVarName pfx a)) hints members roa with
  | ok p => obtain ⟨ov, ws⟩ := p; rfl
  | error e => rfl

/-- Unfolding lemma for `firstErr`. -/
theorem firstErr_cons (a : String) (rest : List String)
    (getenv : String → Option String) (hints : List (String × PyType))
    (members : List (String × PyVal)) (roa : Bool) (pfx : String) :
    firstErr (a :: rest) getenv hints members roa pfx =
      match fieldAct a (getenv (getEnvVarName pfx a)) hints members roa with
      | .ok _ => firstErr rest getenv hints members roa pfx
      | .error e => Option.some e := rfl

/-- The error of a loop run does not depend on the store or the logs. -/
theorem processWith_err_eq_firstErr (order : List String)
    (getenv : String → Option String) (hints : List (String × PyType))
    (members : List (String × PyVal)) (roa : Bool) (pfx : String)
    (st : Store) (logs : List String) :
    (processWith order getenv hints members roa pfx st logs).err =
      firstErr order getenv hints members roa pfx := by
  induction order generalizing st logs with
  | nil => rfl
  | cons a rest ih =>
    rw [processWith_cons_norm, firstErr_cons]
    cases hF : fieldAct a (getenv (getEnvVarName pfx a)) hints members roa with
    | ok p =>
      obtain ⟨ov, ws⟩ := p
      exact ih (applyOpt st a ov) (logs ++ ws)
    | error e => rfl

/-- An attribute that is not enumerated is never written. -/
theorem processWith_store_not_mem (order : List String)
    (getenv : String → Option String) (hints : List (String × PyType))
    (members : List (String × PyVal)) (roa : Bool) (pfx : String)
    (a : String) (ha : a ∉ order) (st : Store) (logs : List String) :
    (processWith order getenv hints members roa pfx st logs).store a = st a := by
  induction order generalizing st logs with
  | nil => rfl
  | cons b rest ih =>
    have hab : a ≠ b := fun h => ha (h ▸ List.mem_cons_self b rest)
    have harest : a ∉ rest := fun h => ha (List.mem_cons_of_mem b h)
    rw [processWith_cons_norm]
    cases hF : fieldAct b (getenv (getEnvVarName pfx b)) hints members roa with
    | ok p =>
      obtain ⟨ov, ws⟩ := p
      exact (ih harest (applyOpt st b ov) (logs ++ ws)).trans
        (applyOpt_apply_ne st b ov a hab)
    | error e => rfl

/-- An attribute whose own binder step is a no-op is never written, whatever
order the loop uses and whether or not the loop fails. -/
theorem processWith_store_keep (order : List String)
    (getenv : String → Option String) (hints : List (String × PyType))
    (members : List (String × PyVal)) (roa : Bool) (pfx : String) (a : String)
    (hK : fieldAct a (getenv (getEnvVarName pfx a)) hints members roa =
      .ok (Option.none, []))
    (st : Store) (logs : List String) :
    (processWith order getenv hints members roa pfx st logs).store a = st a := by
  induction order generalizing st logs with
  | nil => rfl
  | cons b rest ih =>
    by_cases hab : a = b
    · subst hab
      rw [processWith_cons_norm, hK]
      exact ih st (logs ++ [])
    · rw [processWith_cons_norm]
      cases hF : fieldAct b (getenv (getEnvVarName pfx b)) hints members roa with
      | ok p =>
        obtain ⟨ov, ws⟩ := p
        exact (ih (applyOpt st b ov) (logs ++ ws)).trans
          (applyOpt_apply_ne st b ov a hab)
      | error e => rfl

/-- On a successful duplicate-free run, the final value of an enumerated
attribute is determined by its own binder step alone. -/
theorem processWith_store_mem (order : List String)
    (getenv : String → Option String) (hints : List (String × PyType))
    (members : List (String × PyVal)) (roa : Bool) (pfx : String)
    (hnd : order.Nodup) (a : String) (ha : a ∈ order) (st : Store) (logs : List String)
    (hok : (processWith order getenv hints members roa pfx st logs).err = Option.none) :
    (processWith order getenv hints members roa pfx st logs).store a =
      (match fieldAct a (getenv (getEnvVarName pfx a)) hints members roa with
       | .ok (Option.some v, _) => Option.some v
       | _ => st a) := by
  induction order generalizing st logs with
  | nil => cases ha
  | cons b rest ih =>
    have hnd2 := List.nodup_cons.mp hnd
    rw [processWith_cons_norm] at hok ⊢
    cases hF : fieldAct b (getenv (getEnvVarName pfx b)) hints members roa with
    | error e =>
      rw [hF] at hok
      exact absurd hok (by simp)
    | ok p =>
      obtain ⟨ov, ws⟩ := p
      rw [hF] at hok
      rcases List.mem_cons.mp ha with hab | harest
      · subst hab
        rw [hF]
        have hrest :=
          processWith_store_not_mem rest getenv hints members roa pfx a hnd2.1
            (applyOpt st a ov) (logs ++ ws)
        rw [hrest]
        cases ov with
        | none => rfl
        | some v => simp [applyOpt, storeSet]
      · have hab : a ≠ b := fun h => hnd2.1 (h ▸ harest)
        rw [ih hnd2.2 harest (applyOpt st b ov) (logs ++ ws) hok]
        cases hFa : fieldAct a (getenv (getEnvVarName pfx a)) hints members roa with
        | ok q =>
          obtain ⟨ov2, ws2⟩ := q
          cases ov2 with
          | some v => rfl
          | none => exact applyOpt_apply_ne st b ov a hab
        | error e => exact applyOpt_apply_ne st b ov a hab

/-- Splitting a run at a point: the tail is only reached when the head ran
without error, and then starts from the head's final state. -/
theorem processWith_append (l1 l2 : List String)
    (getenv : String → Option String) (hints : List (String × PyType))
    (members : List (String × PyVal)) (roa : Bool) (pfx : String)
    (st : Store) (logs : List String) :
    processWith (l1 ++ l2) getenv hints members roa pfx st logs =
      (match (processWith l1 getenv hints members roa pfx st logs).err with
       | Option.none =>
         processWith l2 getenv hints members roa pfx
           (processWith l1 getenv hints members roa pfx st logs).store
           (processWith l1 getenv hints members roa pfx st logs).logs
       | Option.some _ => processWith l1 getenv hints members roa pfx st logs) := by
  induction l1 generalizing st logs with
  | nil => rfl
  | cons a rest ih =>
    rw [List.cons_append, processWith_cons a (rest ++ l2), processWith_cons a rest]
    cases hP : processEnvVar a (getenv (getEnvVarName pfx a)) hints members roa st logs with
    | ok p =>
      obtain ⟨st2, logs2⟩ := p
      exact ih st2 logs2
    | error e => rfl

/-- A run only reads the environment at the derived names of the attributes
it enumerates. -/
theorem processWith_env_congr (order : List String)
    (g g' : String → Option String) (hints : List (String × PyType))
    (members : List (String × PyVal)) (roa : Bool) (pfx : String)
    (hag : ∀ a ∈ order, g (getEnvVarName pfx a) = g' (getEnvVarName pfx a))
    (st : Store) (logs : List String) :
    processWith order g hints members roa pfx st logs =
      processWith order g' hints members roa pfx st logs := by
  induction order generalizing st logs with
  | nil => rfl
  | cons a rest ih =>
    rw [processWith_cons a rest g, processWith_cons a rest g',
      hag a (List.mem_cons_self a rest)]
    cases processEnvVar a (g' (getEnvVarName pfx a)) hints members roa st logs with
    | ok p =>
      obtain ⟨st2, logs2⟩ := p
      exact ih (fun b hb => hag b (List.mem_cons_of_mem a hb)) st2 logs2
    | error e => rfl

/-- A run is error-free exactly when every enumerated attribute's own
binder step succeeds. -/
theorem firstErr_eq_none_iff (order : List String)
    (getenv : String → Option String) (hints : List (String × PyType))
    (members : List (String × PyVal)) (roa : Bool) (pfx : String) :
    firstErr order getenv hints members roa pfx = Option.none ↔
      ∀ a ∈ order, ∃ p,
        fieldAct a (getenv (getEnvVarName pfx a)) hints members roa = Except.ok p := by
  induction order with
  | nil => simp [firstErr]
  | cons a rest ih =>
    rw [firstErr_cons]
    cases hF : fieldAct a (getenv (getEnvVarName pfx a)) hints members roa with
    | ok p =>
      rw [List.forall_mem_cons]
      exact ⟨fun h => ⟨⟨p, hF⟩, ih.mp h⟩, fun h => ih.mpr h.2⟩
    | error e =>
      rw [List.forall_mem_cons]
      exact iff_of_false (fun h => Option.noConfusion h)
        (fun h => by obtain ⟨q, hq⟩ := h.1; rw [hF] at hq; exact Except.noConfusion hq)

/-- A key that occurs in an association list has a successful lookup. -/
theorem lookup_isSome_of_mem_keys {β : Type} (l : List (String × β)) (a : String)
    (h : a ∈ l.map Prod.fst) : (List.lookup a l).isSome = true := by
  induction l with
  | nil => simp at h
  | cons p rest ih =>
    obtain ⟨k, v⟩ := p
    simp only [List.map_cons, List.mem_cons] at h
    cases hk : a == k with
    | true => simp [List.lookup, hk]
    | false =>
      rw [beq_eq_false_iff_ne] at hk
      rcases h with h | h
      · exact absurd h hk
      · simpa [List.lookup, beq_eq_false_iff_ne.mpr hk] using ih h

/-- Every enumerated attribute is a key of the hint dictionary or of the
filtered member dictionary. -/
theorem attributes_closure (o : PyObj) (a : String) (ha : a ∈ attributes o) :
    (List.lookup a o.hints).isSome = true ∨
      (List.lookup a (filteredMembers o)).isSome = true := by
  have h := List.mem_dedup.mp ha
  rcases List.mem_append.mp h with h | h
  · exact Or.inr (lookup_isSome_of_mem_keys _ a h)
  · exact Or.inl (lookup_isSome_of_mem_keys _ a h)

/-- A failed raw constructor application raises a coercion error. -/
theorem pyCtor_error (t : PyType) (s : String) (e : Err)
    (h : pyCtor t s = .error e) : ∃ msg, e = Err.coercion msg := by
  cases t with
  | str => simp [pyCtor] at h
  | int =>
    simp only [pyCtor] at h
    cases hp : parsePyInt s with
    | some n => rw [hp] at h; simp at h
    | none =>
      rw [hp] at h
      injection h with h1
      exact ⟨_, h1.symm⟩
  | bool => simp [pyCtor] at h
  | noneType =>
    simp only [pyCtor] at h
    injection h with h1
    exact ⟨_, h1.symm⟩

/-- A failed hinted conversion raises a coercion error. -/
theorem coerceHinted_error (t : PyType) (s : String) (e : Err)
    (h : coerceHinted t s = .error e) : ∃ msg, e = Err.coercion msg := by
  unfold coerceHinted at h
  by_cases hb : t = PyType.bool
  · rw [if_pos hb] at h
    cases hs : strtobool s with
    | some n => rw [hs] at h; simp at h
    | none =>
      rw [hs] at h
      injection h with h1
      exact ⟨_, h1.symm⟩
  · rw [if_neg hb] at h
    exact pyCtor_error t s e h

/-- An error of a binder step whose attribute is a key of the hints or of
the members is a missing-configuration error or a coercion error (never a
KeyError). -/
theorem fieldAct_error_cases (a : String) (ev : Option String)
    (hints : List (String × PyType)) (members : List (String × PyVal))
    (roa : Bool) (e : Err)
    (hcl : (List.lookup a hints).isSome = true ∨
      (List.lookup a members).isSome = true)
    (hA : fieldAct a ev hints members roa = .error e) :
    (∃ msg, e = Err.missing msg) ∨ (∃ msg, e = Err.coercion msg) := by
  unfold fieldAct at hA
  by_cases hb : pyTruthyOptStr ev = true
  · rw [if_pos hb] at hA
    cases hh : List.lookup a hints with
    | some t =>
      rw [hh] at hA
      simp only [] at hA
      cases hc : coerceHinted t (optStrVal ev) with
      | ok v => rw [hc] at hA; simp at hA
      | error e2 =>
        rw [hc] at hA
        injection hA with h1
        exact Or.inr (h1 ▸ coerceHinted_error t (optStrVal ev) e2 hc)
    | none =>
      rw [hh] at hA
      simp only [] at hA
      cases hm : List.lookup a members with
      | some dv =>
        rw [hm] at hA
        simp only [] at hA
        cases hc : pyCtor (typeOf dv) (optStrVal ev) with
        | ok v => rw [hc] at hA; simp at hA
        | error e2 =>
          rw [hc] at hA
          injection hA with h1
          exact Or.inr (h1 ▸ pyCtor_error (typeOf dv) (optStrVal ev) e2 hc)
      | none =>
        rcases hcl with h | h
        · rw [hh] at h; simp at h
        · rw [hm] at h; simp at h
  · rw [if_neg hb] at hA
    by_cases hd : pyTruthyOptVal (List.lookup a members) = true
    · rw [if_pos hd] at hA; simp at hA
    · rw [if_neg hd] at hA
      cases roa with
      | true =>
        simp only [if_true] at hA
        injection hA with h1
        exact Or.inl ⟨_, h1.symm⟩
      | false => simp at hA

/-- A binder step that succeeds with absence configured fatal succeeds
identically with absence configured non-fatal. -/
theorem fieldAct_ok_of_true (a : String) (ev : Option String)
    (hints : List (String × PyType)) (members : List (String × PyVal))
    (p : Option PyVal × List String)
    (hp : fieldAct a ev hints members true = .ok p) :
    fieldAct a ev hints members false = .ok p := by
  unfold fieldAct at hp ⊢
  by_cases hb : pyTruthyOptStr ev = true
  · rw [if_pos hb] at hp ⊢; exact hp
  · rw [if_neg hb] at hp ⊢
    by_cases hd : pyTruthyOptVal (List.lookup a members) = true
    · rw [if_pos hd] at hp ⊢; exact hp
    · rw [if_neg hd] at hp
      simp at hp

/-- A binder step that fails with a coercion error with absence configured
fatal fails with the same error with absence configured non-fatal. -/
theorem fieldAct_coercion_of_true (a : String) (ev : Option String)
    (hints : List (String × PyType)) (members : List (String × PyVal))
    (msg : String)
    (hp : fieldAct a ev hints members true = .error (Err.coercion msg)) :
    fieldAct a ev hints members false = .error (Err.coercion msg) := by
  unfold fieldAct at hp ⊢
  by_cases hb : pyTruthyOptStr ev = true
  · rw [if_pos hb] at hp ⊢; exact hp
  · rw [if_neg hb] at hp ⊢
    by_cases hd : pyTruthyOptVal (List.lookup a members) = true
    · rw [if_pos hd] at hp; simp at hp
    · rw [if_neg hd] at hp
      simp only [if_true] at hp
      injection hp with h1
      exact Err.noConfusion h1

/-- With absence configured non-fatal, a binder step never raises a
missing-configuration error. -/
theorem fieldAct_false_not_missing (a : String) (ev : Option String)
    (hints : List (String × PyType)) (members : List (String × PyVal))
    (msg : String)
    (h : fieldAct a ev hints members false = .error (Err.missing msg)) : False := by
  unfold fieldAct at h
  by_cases hb : pyTruthyOptStr ev = true
  · rw [if_pos hb] at h
    cases hh : List.lookup a hints with
    | some t =>
      rw [hh] at h
      simp only [] at h
      cases hc : coerceHinted t (optStrVal ev) with
      | ok v => rw [hc] at h; simp at h
      | error e2 =>
        rw [hc] at h
        injection h with h1
        obtain ⟨m2, hm2⟩ := coerceHinted_error t (optStrVal ev) e2 hc
        rw [hm2] at h1
        exact Err.noConfusion h1
    | none =>
      rw [hh] at h
      simp only [] at h
      cases hm : List.lookup a members with
      | some dv =>
        rw [hm] at h
        simp only [] at h
        cases hc : pyCtor (typeOf dv) (optStrVal ev) with
        | ok v => rw [hc] at h; simp at h
        | error e2 =>
          rw [hc] at h
          injection h with h1
          obtain ⟨m2, hm2⟩ := pyCtor_error (typeOf dv) (optStrVal ev) e2 hc
          rw [hm2] at h1
          exact Err.noConfusion h1
      | none =>
        rw [hm] at h
        simp only [] at h
        injection h with h1
        exact Err.noConfusion h1
  · rw [if_neg hb] at h
    by_cases hd : pyTruthyOptVal (List.lookup a members) = true
    · rw [if_pos hd] at h; simp at h
    · rw [if_neg hd] at h; simp at h

/-- The first error of a run over attributes that are keys of the hint or
member dictionaries is a missing-configuration or a coercion error. -/
theorem firstErr_classify (order : List String)
    (getenv : String → Option String) (hints : List (String × PyType))
    (members : List (String × PyVal)) (roa : Bool) (pfx : String)
    (hcl : ∀ a ∈ order, (List.lookup a hints).isSome = true ∨
      (List.lookup a members).isSome = true)
    (e : Err) (he : firstErr order getenv hints members roa pfx = Option.some e) :
    (∃ msg, e = Err.missing msg) ∨ (∃ msg, e = Err.coercion msg) := by
  induction order with
  | nil => simp [firstErr] at he
  | cons a rest ih =>
    rw [firstErr_cons] at he
    cases hF : fieldAct a (getenv (getEnvVarName pfx a)) hints members roa with
    | ok p =>
      rw [hF] at he
      exact ih (fun b hb => hcl b (List.mem_cons_of_mem a hb)) he
    | error e2 =>
      rw [hF] at he
      injection he with h1
      exact h1 ▸ fieldAct_error_cases a (getenv (getEnvVarName pfx a)) hints members roa e2
        (hcl a (List.mem_cons_self a rest)) hF

/-- With absence configured non-fatal, a run never fails with a
missing-configuration error. -/
theorem firstErr_false_not_missing (order : List String)
    (getenv : String → Option String) (hints : List (String × PyType))
    (members : List (String × PyVal)) (pfx : String) (msg : String)
    (h : firstErr order getenv hints members false pfx =
      Option.some (Err.missing msg)) : False := by
  induction order with
  | nil => simp [firstErr] at h
  | cons a rest ih =>
    rw [firstErr_cons] at h
    cases hF : fieldAct a (getenv (getEnvVarName pfx a)) hints members false with
    | ok p => rw [hF] at h; exact ih h
    | error e2 =>
      rw [hF] at h
      injection h with h1
      exact fieldAct_false_not_missing a (getenv (getEnvVarName pfx a)) hints members msg
        (h1 ▸ hF)

/-- A coercion failure raised with absence configured fatal is raised
identically with absence configured non-fatal. -/
theorem firstErr_coercion_true_to_false (order : List String)
    (getenv : String → Option String) (hints : List (String × PyType))
    (members : List (String × PyVal)) (pfx : String) (msg : String)
    (h : firstErr order getenv hints members true pfx =
      Option.some (Err.coercion msg)) :
    firstErr order getenv hints members false pfx =
      Option.some (Err.coercion msg) := by
  induction order with
  | nil => simp [firstErr] at h
  | cons a rest ih =>
    rw [firstErr_cons] at h
    rw [firstErr_cons]
    cases hF : fieldAct a (getenv (getEnvVarName pfx a)) hints members true with
    | ok p =>
      rw [hF] at h
      rw [fieldAct_ok_of_true a (getenv (getEnvVarName pfx a)) hints members p hF]
      exact ih h
    | error e2 =>
      rw [hF] at h
      injection h with h1
      rw [fieldAct_coercion_of_true a (getenv (getEnvVarName pfx a)) hints members msg
        (h1 ▸ hF)]

/-! Claim theorems. -/

/-- Claim C3 (confirmed): the environment variable consulted for a field is
the uppercased field name when the prefix is empty and the uppercased
prefix, an underscore, and the uppercased field name otherwise; `process`
reads the environment only at those derived names, so with prefix "person"
the field `name` is sourced from PERSON_NAME, not NAME. -/
theorem c3_env_var_name_derivation :
    (∀ a : String, getEnvVarName "" a = pyUpper a) ∧
    (∀ pfx a : String, pfx ≠ "" →
      getEnvVarName pfx a = pyUpper pfx ++ "_" ++ pyUpper a) ∧
    (∀ (g g' : String → Option String) (o : PyObj) (roa : Bool) (pfx : String),
      (∀ a ∈ attributes o, g (getEnvVarName pfx a) = g' (getEnvVarName pfx a)) →
      process g o roa pfx = process g' o roa pfx) := by
  refine ⟨fun a => rfl, ?_, ?_⟩
  · intro pfx a h
    unfold getEnvVarName
    rw [if_pos (bne_iff_ne.mpr h)]
  · intro g g' o roa pfx hag
    unfold process
    exact processWith_env_congr (attributes o) g g' o.hints (filteredMembers o)
      roa pfx hag (initStore o) []

/-- Witness for C3: with prefix "person" and field `name`, changing the
variable NAME does not change the result of `process`; only PERSON_NAME is
consulted. -/
theorem c3_witness :
    process envPersonAndName oNameHinted true "person" =
      process envPersonOnly oNameHinted true "person" :=
  c3_env_var_name_derivation.2.2 envPersonAndName envPersonOnly oNameHinted true "person"
    (by decide)

/-- Claim C9 (confirmed): every enumerated field that lacks a type hint is
a key of the member dictionary (the eligible set is the union of hinted
names and member names), so the unguarded `members[attribute]` lookup of
the no-hint branch never fails: `process` never raises a KeyError. -/
theorem c9_lookup_total :
    (∀ (o : PyObj) (a : String), a ∈ attributes o →
      List.lookup a o.hints = Option.none →
      (List.lookup a (filteredMembers o)).isSome = true) ∧
    (∀ (g : String → Option String) (o : PyObj) (roa : Bool) (pfx a : String),
      (process g o roa pfx).err ≠ Option.some (Err.keyErr a)) := by
  refine ⟨?_, ?_⟩
  · intro o a ha hh
    rcases attributes_closure o a ha with h | h
    · rw [hh] at h; simp at h
    · exact h
  · intro g o roa pfx a hcon
    unfold process at hcon
    rw [processWith_err_eq_firstErr] at hcon
    rcases firstErr_classify (attributes o) g o.hints (filteredMembers o) roa pfx
        (fun b hb => attributes_closure o b hb) _ hcon with ⟨m, hm⟩ | ⟨m, hm⟩ <;>
      exact Err.noConfusion hm

/-- Witness for C9: a field that is a member but carries no hint has a
successful member lookup. -/
theorem c9_witness : (List.lookup "age" (filteredMembers oAgeMember)).isSome = true :=
  c9_lookup_total.1 oAgeMember "age" (by decide) rfl

/-- Claim C7 (confirmed): every failure of `process` is a
missing-configuration error or a coercion error; with raise_on_absence
false no missing-configuration error is ever raised, and a coercion error
raised in the raising mode is raised identically in the non-raising mode
(it is never degraded to a null assignment). -/
theorem c7_error_taxonomy :
    (∀ (g : String → Option String) (o : PyObj) (roa : Bool) (pfx : String) (e : Err),
      (process g o roa pfx).err = Option.some e →
      (∃ msg, e = Err.missing msg) ∨ (∃ msg, e = Err.coercion msg)) ∧
    (∀ (g : String → Option String) (o : PyObj) (pfx msg : String),
      (process g o false pfx).err ≠ Option.some (Err.missing msg)) ∧
    (∀ (g : String → Option String) (o : PyObj) (pfx msg : String),
      (process g o true pfx).err = Option.some (Err.coercion msg) →
      (process g o false pfx).err = Option.some (Err.coercion msg)) := by
  refine ⟨?_, ?_, ?_⟩
  · intro g o roa pfx e he
    unfold process at he
    rw [processWith_err_eq_firstErr] at he
    exact firstErr_classify (attributes o) g o.hints (filteredMembers o) roa pfx
      (fun a ha => attributes_closure o a ha) e he
  · intro g o pfx msg hcon
    unfold process at hcon
    rw [processWith_err_eq_firstErr] at hcon
    exact firstErr_false_not_missing (attributes o) g o.hints (filteredMembers o)
      pfx msg hcon
  · intro g o pfx msg h
    unfold process at h ⊢
    rw [processWith_err_eq_firstErr] at h ⊢
    exact firstErr_coercion_true_to_false (attributes o) g o.hints (filteredMembers o)
      pfx msg h

/-- Witness for C7: a malformed integer value raises the same coercion
error in the non-raising mode. -/
theorem c7_witness :
    (process envAgeBad oAgeHinted false "").err =
      Option.some (Err.coercion "invalid literal for int() with base 10: abc") :=
  c7_error_taxonomy.2.2 envAgeBad oAgeHinted ""
    "invalid literal for int() with base 10: abc" rfl

/-- Claim C10 (confirmed): when the loop completes without error, the final
value of every attribute is independent of the order in which the
(duplicate-free) attribute set is enumerated and of the log state; the
enumeration `process` uses is duplicate-free. -/
theorem c10_order_independent
    (g : String → Option String) (hints : List (String × PyType))
    (members : List (String × PyVal)) (roa : Bool) (pfx : String) (st : Store)
    (logs logs2 : List String) (l l2 : List String)
    (hnd : l.Nodup) (hperm : l.Perm l2)
    (hok : (processWith l g hints members roa pfx st logs).err = Option.none) :
    (processWith l2 g hints members roa pfx st logs2).err = Option.none ∧
    (∀ n, (processWith l2 g hints members roa pfx st logs2).store n =
      (processWith l g hints members roa pfx st logs).store n) ∧
    (∀ o : PyObj, (attributes o).Nodup) := by
  have hnd2 : l2.Nodup := hperm.nodup_iff.mp hnd
  have hok1 : firstErr l g hints members roa pfx = Option.none := by
    rw [← processWith_err_eq_firstErr l g hints members roa pfx st logs]
    exact hok
  have hall := (firstErr_eq_none_iff l g hints members roa pfx).mp hok1
  have hok2' : firstErr l2 g hints members roa pfx = Option.none :=
    (firstErr_eq_none_iff l2 g hints members roa pfx).mpr
      (fun a ha => hall a (hperm.mem_iff.mpr ha))
  have hok2 : (processWith l2 g hints members roa pfx st logs2).err = Option.none := by
    rw [processWith_err_eq_firstErr]
    exact hok2'
  refine ⟨hok2, ?_, fun o => List.nodup_dedup _⟩
  intro n
  by_cases hn : n ∈ l
  · rw [processWith_store_mem l2 g hints members roa pfx hnd2 n
        (hperm.mem_iff.mp hn) st logs2 hok2,
      processWith_store_mem l g hints members roa pfx hnd n hn st logs hok]
  · rw [processWith_store_not_mem l2 g hints members roa pfx n
        (fun h => hn (hperm.mem_iff.mpr h)) st logs2,
      processWith_store_not_mem l g hints members roa pfx n hn st logs]

/-- Witness for C10: a two-field run succeeds in the reversed order as
well. -/
theorem c10_witness :
    (processWith ["age", "name"] envNameAge oNameAge.hints (filteredMembers oNameAge)
      true "" (initStore oNameAge) []).err = Option.none :=
  (c10_order_independent envNameAge oNameAge.hints (filteredMembers oNameAge)
    true "" (initStore oNameAge) [] [] ["name", "age"] ["age", "name"]
    (by decide) (by decide) rfl).1

/-- Claim C8 (confirmed): the first failing field aborts the run: the
result is exactly the state accumulated over the fields enumerated before
it, together with that field's error, and it does not depend on the fields
enumerated after it (`l2` is arbitrary and absent from the conclusion). -/
theorem c8_first_failure_aborts
    (g : String → Option String) (hints : List (String × PyType))
    (members : List (String × PyVal)) (roa : Bool) (pfx : String)
    (st : Store) (logs : List String) (l1 : List String) (a : String)
    (l2 : List String) (e : Err)
    (h1 : (processWith l1 g hints members roa pfx st logs).err = Option.none)
    (hf : fieldAct a (g (getEnvVarName pfx a)) hints members roa = .error e) :
    processWith (l1 ++ a :: l2) g hints members roa pfx st logs =
      ⟨(processWith l1 g hints members roa pfx st logs).store,
       (processWith l1 g hints members roa pfx st logs).logs,
       Option.some e⟩ := by
  rw [processWith_append, h1]
  show processWith (a :: l2) g hints members roa pfx
      (processWith l1 g hints members roa pfx st logs).store
      (processWith l1 g hints members roa pfx st logs).logs = _
  rw [processWith_cons_norm, hf]

/-- Witness for C8: in a three-field run whose middle field has a malformed
integer value, the run stops at that field with its coercion error, keeping
the state of the first field. -/
theorem c8_witness :
    processWith (["name"] ++ "age" :: ["is_married"]) envScenarioBadAge
        oScenario.hints (filteredMembers oScenario) true ""
        (initStore oScenario) [] =
      ⟨(processWith ["name"] envScenarioBadAge oScenario.hints
          (filteredMembers oScenario) true "" (initStore oScenario) []).store,
       (processWith ["name"] envScenarioBadAge oScenario.hints
          (filteredMembers oScenario) true "" (initStore oScenario) []).logs,
       Option.some (Err.coercion "invalid literal for int() with base 10: abc")⟩ :=
  c8_first_failure_aborts envScenarioBadAge oScenario.hints (filteredMembers oScenario)
    true "" (initStore oScenario) [] ["name"] "age" ["is_married"]
    (Err.coercion "invalid literal for int() with base 10: abc") rfl rfl

/-- Claim C5 (confirmed): a field whose environment variable is absent or
empty and whose default value is present and truthy keeps its initial
value: `process` never writes it, whatever the raise mode, the prefix, or
the outcome of the other fields. -/
theorem c5_truthy_default_retained
    (g : String → Option String) (o : PyObj) (roa : Bool) (pfx : String) (a : String)
    (hv : pyTruthyOptStr (g (getEnvVarName pfx a)) = false)
    (hd : pyTruthyOptVal (List.lookup a (filteredMembers o)) = true) :
    (process g o roa pfx).store a = initStore o a := by
  have hFa : fieldAct a (g (getEnvVarName pfx a)) o.hints (filteredMembers o) roa =
      .ok (Option.none, []) := by
    simp [fieldAct, hv, hd]
  unfold process
  exact processWith_store_keep (attributes o) g o.hints (filteredMembers o) roa pfx a hFa
    (initStore o) []

/-- Witness for C5: with AGE unset, the field `age : int = 25` keeps its
default. -/
theorem c5_witness :
    (process envEmpty oAgeDefault true "").store "age" = initStore oAgeDefault "age" ∧
    initStore oAgeDefault "age" = Option.some (PyVal.int 25) :=
  ⟨c5_truthy_default_retained envEmpty oAgeDefault true "" "age" rfl rfl, rfl⟩

/-- Claim C1 (corrected): on a successful run, an eligible field whose
environment variable is present and non-empty is assigned the hinted
conversion of the string when a type hint is present (booleans through the
truthy/falsy grammar), and otherwise the raw constructor of the runtime
type of its default value applied to the string — which for a boolean
default is the truthiness of the string, not the boolean grammar. -/
theorem c1_type_selection
    (g : String → Option String) (o : PyObj) (roa : Bool) (pfx : String) (a : String)
    (ha : a ∈ attributes o)
    (hv : pyTruthyOptStr (g (getEnvVarName pfx a)) = true)
    (hok : (process g o roa pfx).err = Option.none) :
    (∀ t, List.lookup a o.hints = Option.some t →
      ∃ v, coerceHinted t (optStrVal (g (getEnvVarName pfx a))) = Except.ok v ∧
        (process g o roa pfx).store a = Option.some v) ∧
    (List.lookup a o.hints = Option.none →
      ∃ dv v, List.lookup a (filteredMembers o) = Option.some dv ∧
        pyCtor (typeOf dv) (optStrVal (g (getEnvVarName pfx a))) = Except.ok v ∧
        (process g o roa pfx).store a = Option.some v) := by
  have hnd : (attributes o).Nodup := List.nodup_dedup _
  have hok1 : firstErr (attributes o) g o.hints (filteredMembers o) roa pfx =
      Option.none := by
    unfold process at hok
    rw [processWith_err_eq_firstErr] at hok
    exact hok
  obtain ⟨p, hp⟩ :=
    (firstErr_eq_none_iff (attributes o) g o.hints (filteredMembers o) roa pfx).mp
      hok1 a ha
  have hstore : (process g o roa pfx).store a =
      (match fieldAct a (g (getEnvVarName pfx a)) o.hints (filteredMembers o) roa with
       | .ok (Option.some v, _) => Option.some v
       | _ => initStore o a) := by
    unfold process at hok ⊢
    exact processWith_store_mem (attributes o) g o.hints (filteredMembers o) roa pfx
      hnd a ha (initStore o) [] hok
  constructor
  · intro t ht
    cases hc : coerceHinted t (optStrVal (g (getEnvVarName pfx a))) with
    | error e2 =>
      have hFa : fieldAct a (g (getEnvVarName pfx a)) o.hints (filteredMembers o) roa =
          .error e2 := by
        simp [fieldAct, hv, ht, hc]
      rw [hFa] at hp
      exact absurd hp (by simp)
    | ok v =>
      have hFa : fieldAct a (g (getEnvVarName pfx a)) o.hints (filteredMembers o) roa =
          .ok (Option.some v, []) := by
        simp [fieldAct, hv, ht, hc]
      refine ⟨v, rfl, ?_⟩
      rw [hstore, hFa]
  · intro ht
    cases hm : List.lookup a (filteredMembers o) with
    | none =>
      have hFa : fieldAct a (g (getEnvVarName pfx a)) o.hints (filteredMembers o) roa =
          .error (.keyErr a) := by
        simp [fieldAct, hv, ht, hm]
      rw [hFa] at hp
      exact absurd hp (by simp)
    | some dv =>
      cases hc : pyCtor (typeOf dv) (optStrVal (g (getEnvVarName pfx a))) with
      | error e2 =>
        have hFa : fieldAct a (g (getEnvVarName pfx a)) o.hints (filteredMembers o) roa =
            .error e2 := by
          simp [fieldAct, hv, ht, hm, hc]
        rw [hFa] at hp
        exact absurd hp (by simp)
      | ok v =>
        have hFa : fieldAct a (g (getEnvVarName pfx a)) o.hints (filteredMembers o) roa =
            .ok (Option.some v, []) := by
          simp [fieldAct, hv, ht, hm, hc]
        refine ⟨dv, v, rfl, hc, ?_⟩
        rw [hstore, hFa]

/-- Witness for C1: the hinted field `age : int` with AGE set to "25" ends
up holding the integer 25. -/
theorem c1_witness :
    (process envAge25 oAgeHinted true "").store "age" = Option.some (PyVal.int 25) := by
  obtain ⟨v, hv1, hv2⟩ :=
    (c1_type_selection envAge25 oAgeHinted true "" "age" (by decide) rfl rfl).1
      PyType.int rfl
  have h25 : coerceHinted PyType.int (optStrVal (envAge25 (getEnvVarName "" "age"))) =
      Except.ok (PyVal.int 25) := rfl
  rw [hv1] at h25
  injection h25 with h1
  rw [← h1]
  exact hv2

/-- Counterexample for C1 as stated: a field `is_married = True` carries no
hint, its environment variable holds "false", and the single coercion
relation of the spec maps "false" under bool to false, yet the code leaves
the field holding true (Python `bool("false")`), so the assigned value is
not the spec-coerced value. -/
theorem c1_counterexample :
    pyTruthyOptStr (envMarriedFalse (getEnvVarName "" "is_married")) = true ∧
    (process envMarriedFalse oMarriedTrue true "").err = Option.none ∧
    List.lookup "is_married" oMarriedTrue.hints = Option.none ∧
    List.lookup "is_married" (filteredMembers oMarriedTrue) =
      Option.some (PyVal.bool true) ∧
    specCoerce (typeOf (PyVal.bool true)) "false" = Except.ok (PyVal.bool false) ∧
    (process envMarriedFalse oMarriedTrue true "").store "is_married" ≠
      Option.some (PyVal.bool false) := by
  refine ⟨rfl, rfl, rfl, rfl, rfl, ?_⟩
  decide

/-- Claim C2 (code bug): a field `is_married = False` with no type hint and
IS_MARRIED set to "0" — a falsy token of the boolean grammar — is assigned
true by the code (Python `bool("0")` is true for the non-empty string) and
no error is raised, where the grammar demands false; the boolean special
case is applied only on the type-hint branch. -/
theorem c2_inferred_bool_ignores_grammar :
    specFalsy "0" = true ∧
    typeOf (PyVal.bool false) = PyType.bool ∧
    (process envMarried0 oMarriedFalse true "").err = Option.none ∧
    (process envMarried0 oMarriedFalse true "").store "is_married" =
      Option.some (PyVal.bool true) :=
  ⟨rfl, rfl, rfl, rfl⟩

/-- Claim C6 (code bug): the underscore filter of `_get_attributes` is
applied to the member dictionary only, so a type-hinted private field
`_secret : str` is enumerated as eligible and bound from the environment,
although the documentation says underscore-prefixed members are ignored. -/
theorem c6_underscore_hint_processed :
    attributes oUnderscoreHinted = ["_secret"] ∧
    pyStartsUnderscore "_secret" = true ∧
    (process envSecret oUnderscoreHinted true "").err = Option.none ∧
    (process envSecret oUnderscoreHinted true "").store "_secret" =
      Option.some (PyVal.str "hushhush") :=
  ⟨rfl, rfl, rfl, rfl⟩

/-- Claim C4 (corrected): for a field whose environment variable is absent
or empty and whose default is absent or falsy, the binder raises a
missing-configuration error naming the field when raise_on_absence is true
(and `process` propagates it when the field is enumerated first), and with
raise_on_absence false it assigns the None sentinel, logs two warnings and
raises nothing; the error message interpolates the looked-up value (None or
the empty string), not the computed environment variable name. -/
theorem c4_absence_behavior
    (a : String) (ev : Option String) (hints : List (String × PyType))
    (members : List (String × PyVal)) (st : Store) (logs : List String)
    (hv : pyTruthyOptStr ev = false)
    (hd : pyTruthyOptVal (List.lookup a members) = false) :
    processEnvVar a ev hints members true st logs =
      Except.error (Err.missing (missingMsg a ev)) ∧
    (∃ s1 s2, missingMsg a ev = s1 ++ (a ++ s2)) ∧
    processEnvVar a ev hints members false st logs =
      Except.ok (storeSet st a PyVal.none, logs ++ [warnMsgVar a, warnMsgNone]) ∧
    (∀ (g : String → Option String) (o : PyObj) (pfx : String) (rest : List String),
      attributes o = a :: rest →
      pyTruthyOptStr (g (getEnvVarName pfx a)) = false →
      pyTruthyOptVal (List.lookup a (filteredMembers o)) = false →
      (process g o true pfx).err =
        Option.some (Err.missing (missingMsg a (g (getEnvVarName pfx a))))) := by
  refine ⟨?_, ?_, ?_, ?_⟩
  · simp [processEnvVar, hv, hd]
  · exact ⟨"No default value provided and no env var set for ",
      " (env var: " ++ (pyShowOptStr ev ++ ")"), rfl⟩
  · simp [processEnvVar, hv, hd]
  · intro g o pfx rest heq hv2 hd2
    have hFa : fieldAct a (g (getEnvVarName pfx a)) o.hints (filteredMembers o) true =
        .error (.missing (missingMsg a (g (getEnvVarName pfx a)))) := by
      simp [fieldAct, hv2, hd2]
    unfold process
    rw [heq, processWith_cons_norm, hFa]

/-- Witness for C4: a hinted field with no member entry and no environment
value raises the missing-configuration error under the raising mode. -/
theorem c4_witness :
    processEnvVar "name" Option.none [] [] true emptyStore [] =
      Except.error (Err.missing (missingMsg "name" Option.none)) :=
  (c4_absence_behavior "name" Option.none [] [] emptyStore [] rfl rfl).1

/-- Counterexample for C4 as stated: with prefix "person" and the field
`name`, the computed environment variable name is PERSON_NAME, but the
message of the raised missing-configuration error does not contain it (it
interpolates the looked-up value None instead); the claim that the error
identifies the computed environment variable name fails. -/
theorem c4_counterexample :
    (process envEmpty oNameHinted true "person").err =
      Option.some (Err.missing (missingMsg "name" Option.none)) ∧
    strContainsSub (missingMsg "name" Option.none) "name" = true ∧
    getEnvVarName "person" "name" = "PERSON_NAME" ∧
    strContainsSub (missingMsg "name" Option.none) "PERSON_NAME" = false :=
  ⟨rfl, rfl, rfl, rfl⟩

end Envconfig
